import Mathlib

/-!
Verification of the zkSealevel off-chain coordination core (orchestrator,
canonical codec, indexer) against its natural-language specification.

The TypeScript sources are shallowly embedded: byte buffers become `List Nat`
(each element a byte value), JavaScript strings become `String`, fallible code
returns `Except`/`Option`, and the cryptographic library calls that the
repository defers to (`blake3`, `sha256`, `nacl.sign.detached`) become
function parameters, since their implementations are not part of the
repository.  Numeric byte-twiddling such as `(x & 0x0f) | 0x40` is written
with `%` and `+` on disjoint bit ranges.
-/

namespace ZkSealevel

/-! ## Byte-level primitives (src/orchestrator `crypto.ts`)

`enc64` embeds `Buffer.writeBigUInt64LE`: eight little-endian bytes.
`u32le` embeds the `u32le` helper, including the `n >>> 0` coercion to
unsigned 32-bit.  `i64le` embeds `writeBigInt64LE` (two's complement). -/

def enc64 (n : Nat) : List Nat :=
  (List.range 8).map (fun i => n / 256 ^ i % 256)

def u32le (n : Nat) : List Nat :=
  (List.range 4).map (fun i => n % 2 ^ 32 / 256 ^ i % 256)

def i64le (n : Int) : List Nat :=
  enc64 (n % (2 : Int) ^ 64).toNat

/-- Little-endian byte list to natural number (`readBigUInt64LE` and
`readUInt32LE` read exactly this on their 8- resp. 4-byte windows). -/
def leToNat (bs : List Nat) : Nat :=
  bs.foldr (fun b acc => b + 256 * acc) 0

/-- Signed interpretation of an 8-byte little-endian window
(`readBigInt64LE`): two's complement. -/
def i64FromLe (bs : List Nat) : Int :=
  let u := leToNat bs
  if u < 2 ^ 63 then (u : Int) else (u : Int) - 2 ^ 64

/-- UTF-8 encoding of one scalar value, as `Buffer.from(s, "utf8")`
produces it byte by byte. -/
def utf8Char (c : Char) : List Nat :=
  let v := c.toNat
  if v < 0x80 then [v]
  else if v < 0x800 then [0xC0 + v / 64, 0x80 + v % 64]
  else if v < 0x10000 then [0xE0 + v / 4096, 0x80 + v / 64 % 64, 0x80 + v % 64]
  else [0xF0 + v / 0x40000, 0x80 + v / 4096 % 64, 0x80 + v / 64 % 64, 0x80 + v % 64]

def utf8Bytes (s : String) : List Nat :=
  s.data.flatMap utf8Char

/-! ## Domain-separated commitment builder (`buildDS`, crypto.ts)

The repository computes `dsHash` by calling the `blake3` library; the digest
function is therefore a parameter here. -/

structure DSResult where
  ds : List Nat
  dsHash : List Nat
  deriving Repr, DecidableEq

def buildDS (blake3 : List Nat → List Nat) (chainId : Nat)
    (programId proofHash : List Nat) (startSlot endSlot seq : Nat) : DSResult :=
  let ds := utf8Bytes "zKSL/anchor/v1" ++ enc64 chainId ++ programId ++
    proofHash ++ enc64 startSlot ++ enc64 endSlot ++ enc64 seq
  ⟨ds, blake3 ds⟩

/-! ## Anchor instruction payload (`encodeAnchorProofArgsBorsh`, crypto.ts)

`sha256` is a parameter: the repository calls `createHash("sha256")`.
The encoder takes the already-encoded little-endian buffers exactly as the
TypeScript function signature does; `anchorInstructionData` is the composition
the submitter actually performs (`submitAnchorProofV1`), which applies
`u64le`/`i64le` to the numeric arguments first. -/

def sha256_8 (sha256 : List Nat → List Nat) (s : String) : List Nat :=
  (sha256 (utf8Bytes s)).take 8

structure AnchorArgs where
  artifactId : List Nat
  proofHash32 : List Nat
  seqLe : List Nat
  startLe : List Nat
  endLe : List Nat
  artifactLen : Nat
  stateRootBefore : List Nat
  stateRootAfter : List Nat
  aggregatorPubkey : List Nat
  timestampLe : List Nat
  dsHash32 : List Nat

def encodeAnchorProofArgsBorsh (sha256 : List Nat → List Nat) (p : AnchorArgs) :
    List Nat :=
  let disc := sha256_8 sha256 "global:anchor_proof"
  let payload := p.artifactId ++ p.proofHash32 ++ p.seqLe ++ p.startLe ++
    p.endLe ++ u32le p.artifactLen ++ p.stateRootBefore ++ p.stateRootAfter ++
    p.aggregatorPubkey ++ p.timestampLe ++ p.dsHash32
  disc ++ payload

def anchorInstructionData (sha256 : List Nat → List Nat)
    (artifactId proofHash : List Nat) (seq startSlot endSlot artifactLen : Nat)
    (stateRootBefore stateRootAfter aggregatorPubkey : List Nat)
    (timestamp : Int) (dsHash : List Nat) : List Nat :=
  encodeAnchorProofArgsBorsh sha256
    { artifactId := artifactId
      proofHash32 := proofHash
      seqLe := enc64 seq
      startLe := enc64 startSlot
      endLe := enc64 endSlot
      artifactLen := artifactLen
      stateRootBefore := stateRootBefore
      stateRootAfter := stateRootAfter
      aggregatorPubkey := aggregatorPubkey
      timestampLe := i64le timestamp
      dsHash32 := dsHash }

/-! ## Generic list-slicing lemmas used throughout the layout proofs -/

theorem drop_append_left {α : Type _} {a b : List α} {n : Nat}
    (h : a.length = n) : (a ++ b).drop n = b := by
  subst h; simp

theorem take_append_left {α : Type _} {a b : List α} {n : Nat}
    (h : a.length = n) : (a ++ b).take n = a := by
  subst h; simp

theorem length_enc64 (n : Nat) : (enc64 n).length = 8 := by
  simp [enc64]

theorem length_u32le (n : Nat) : (u32le n).length = 4 := by
  simp [u32le]

theorem length_i64le (n : Int) : (i64le n).length = 8 := length_enc64 _

theorem length_dsTag : (utf8Bytes "zKSL/anchor/v1").length = 14 := by decide

/-- C1: for every input (chain_id, program_id, proof_hash, start_slot,
end_slot, seq) — with the u64 arguments in range and the two key arguments
32 bytes wide, as the specification types them — `buildDS` returns a preimage
that is the concatenation, in order, of the ASCII literal `zKSL/anchor/v1`
(14 bytes, at offset 0), chain_id as u64 LE (offset 14), program_id (32 bytes
at offset 22), proof_hash (32 bytes at offset 54), start_slot (u64 LE at
offset 86), end_slot (u64 LE at offset 94) and seq (u64 LE at offset 102);
the preimage is exactly 110 bytes long and the returned digest is the BLAKE3
function applied to this preimage. -/
theorem C1_buildDS_preimage_layout (blake3 : List Nat → List Nat)
    (chainId : Nat) (programId proofHash : List Nat)
    (startSlot endSlot seq : Nat) (r : DSResult)
    (hr : r = buildDS blake3 chainId programId proofHash startSlot endSlot seq)
    (hcid : chainId < 2 ^ 64) (hss : startSlot < 2 ^ 64)
    (hes : endSlot < 2 ^ 64) (hq : seq < 2 ^ 64)
    (hpid : programId.length = 32) (hph : proofHash.length = 32) :
    r.ds.length = 110 ∧
    r.ds.take 14 = utf8Bytes "zKSL/anchor/v1" ∧
    (r.ds.drop 14).take 8 = enc64 chainId ∧
    (r.ds.drop 22).take 32 = programId ∧
    (r.ds.drop 54).take 32 = proofHash ∧
    (r.ds.drop 86).take 8 = enc64 startSlot ∧
    (r.ds.drop 94).take 8 = enc64 endSlot ∧
    r.ds.drop 102 = enc64 seq ∧
    r.dsHash = blake3 r.ds := by
  have hds : r.ds = utf8Bytes "zKSL/anchor/v1" ++ (enc64 chainId ++ (programId ++
      (proofHash ++ (enc64 startSlot ++ (enc64 endSlot ++ enc64 seq))))) := by
    simp [hr, buildDS, List.append_assoc]
  have d14 : r.ds.drop 14 = enc64 chainId ++ (programId ++
      (proofHash ++ (enc64 startSlot ++ (enc64 endSlot ++ enc64 seq)))) := by
    rw [hds]; exact drop_append_left length_dsTag
  have d22 : r.ds.drop 22 = programId ++
      (proofHash ++ (enc64 startSlot ++ (enc64 endSlot ++ enc64 seq))) := by
    have h : r.ds.drop 22 = (r.ds.drop 14).drop 8 := by
      rw [List.drop_drop]
    rw [h, d14]; exact drop_append_left (length_enc64 _)
  have d54 : r.ds.drop 54 = proofHash ++
      (enc64 startSlot ++ (enc64 endSlot ++ enc64 seq)) := by
    have h : r.ds.drop 54 = (r.ds.drop 22).drop 32 := by
      rw [List.drop_drop]
    rw [h, d22]; exact drop_append_left hpid
  have d86 : r.ds.drop 86 = enc64 startSlot ++ (enc64 endSlot ++ enc64 seq) := by
    have h : r.ds.drop 86 = (r.ds.drop 54).drop 32 := by
      rw [List.drop_drop]
    rw [h, d54]; exact drop_append_left hph
  have d94 : r.ds.drop 94 = enc64 endSlot ++ enc64 seq := by
    have h : r.ds.drop 94 = (r.ds.drop 86).drop 8 := by
      rw [List.drop_drop]
    rw [h, d86]; exact drop_append_left (length_enc64 _)
  have d102 : r.ds.drop 102 = enc64 seq := by
    have h : r.ds.drop 102 = (r.ds.drop 94).drop 8 := by
      rw [List.drop_drop]
    rw [h, d94]; exact drop_append_left (length_enc64 _)
  refine ⟨?_, ?_, ?_, ?_, ?_, ?_, ?_, d102, ?_⟩
  · rw [hds]
    simp [length_dsTag, length_enc64, hpid, hph]
  · rw [hds]; exact take_append_left length_dsTag
  · rw [d14]; exact take_append_left (length_enc64 _)
  · rw [d22]; exact take_append_left hpid
  · rw [d54]; exact take_append_left hph
  · rw [d86]; exact take_append_left (length_enc64 _)
  · rw [d94]; exact take_append_left (length_enc64 _)
  · rw [hr]; rfl

theorem C1_buildDS_preimage_layout_witness :
    (buildDS (fun l => l.take 32) 1 (List.replicate 32 0) (List.replicate 32 0)
        1 1 1).ds.length = 110 ∧
    (buildDS (fun l => l.take 32) 1 (List.replicate 32 0) (List.replicate 32 0)
        1 1 1).ds.drop 102 = enc64 1 :=
  ⟨(C1_buildDS_preimage_layout (fun l => l.take 32) 1 _ _ 1 1 1 _ rfl
      (by norm_num) (by norm_num) (by norm_num) (by norm_num)
      (by simp) (by simp)).1,
   (C1_buildDS_preimage_layout (fun l => l.take 32) 1 _ _ 1 1 1 _ rfl
      (by norm_num) (by norm_num) (by norm_num) (by norm_num)
      (by simp) (by simp)).2.2.2.2.2.2.2.1⟩

/-- C2: the anchor instruction data assembled by the submitter
(`submitAnchorProofV1` composing `u64le`/`i64le` with
`encodeAnchorProofArgsBorsh`) is exactly 220 bytes: an 8-byte discriminator
equal to the first 8 bytes of SHA-256 of the string `global:anchor_proof`,
followed by a 212-byte payload holding, in order, artifact_id (16 bytes at
offset 8), proof_hash (32 at 24), seq (u64 LE at 56), start_slot (u64 LE at
64), end_slot (u64 LE at 72), artifact_len (u32 LE at 80),
state_root_before (32 at 84), state_root_after (32 at 116),
aggregator_pubkey (32 at 148), timestamp (i64 LE at 180) and ds_hash
(32 at 188).  The SHA-256 function is a parameter (the code calls the
node crypto library), constrained to produce 32-byte digests on the
discriminator input. -/
theorem C2_anchor_payload_layout (sha256 : List Nat → List Nat)
    (h256 : (sha256 (utf8Bytes "global:anchor_proof")).length = 32)
    (artifactId proofHash srb sra agg dsHash : List Nat)
    (seq startSlot endSlot artifactLen : Nat) (timestamp : Int)
    (hai : artifactId.length = 16) (hph : proofHash.length = 32)
    (hsrb : srb.length = 32) (hsra : sra.length = 32) (hagg : agg.length = 32)
    (hds : dsHash.length = 32) (hseq : seq < 2 ^ 64) (hss : startSlot < 2 ^ 64)
    (hes : endSlot < 2 ^ 64) (hlen : artifactLen < 2 ^ 32)
    (hts₁ : -(2 ^ 63) ≤ timestamp) (hts₂ : timestamp < 2 ^ 63)
    (d : List Nat)
    (hd : d = anchorInstructionData sha256 artifactId proofHash seq startSlot
      endSlot artifactLen srb sra agg timestamp dsHash) :
    d.length = 220 ∧
    d.take 8 = (sha256 (utf8Bytes "global:anchor_proof")).take 8 ∧
    (d.drop 8).take 16 = artifactId ∧
    (d.drop 24).take 32 = proofHash ∧
    (d.drop 56).take 8 = enc64 seq ∧
    (d.drop 64).take 8 = enc64 startSlot ∧
    (d.drop 72).take 8 = enc64 endSlot ∧
    (d.drop 80).take 4 = u32le artifactLen ∧
    (d.drop 84).take 32 = srb ∧
    (d.drop 116).take 32 = sra ∧
    (d.drop 148).take 32 = agg ∧
    (d.drop 180).take 8 = i64le timestamp ∧
    d.drop 188 = dsHash := by
  have hdisc : (sha256_8 sha256 "global:anchor_proof").length = 8 := by
    simp [sha256_8, h256]
  have hform : d = sha256_8 sha256 "global:anchor_proof" ++ (artifactId ++
      (proofHash ++ (enc64 seq ++ (enc64 startSlot ++ (enc64 endSlot ++
      (u32le artifactLen ++ (srb ++ (sra ++ (agg ++
      (i64le timestamp ++ dsHash)))))))))) := by
    simp [hd, anchorInstructionData, encodeAnchorProofArgsBorsh,
      List.append_assoc]
  have step : ∀ k j : Nat, ∀ a rest : List Nat, d.drop k = a ++ rest →
      a.length = j → d.drop (k + j) = rest := by
    intro k j a rest hk ha
    have h : d.drop (k + j) = (d.drop k).drop j := by
      rw [List.drop_drop]
    rw [h, hk]; exact drop_append_left ha
  have d0 : d.drop 0 = sha256_8 sha256 "global:anchor_proof" ++ (artifactId ++
      (proofHash ++ (enc64 seq ++ (enc64 startSlot ++ (enc64 endSlot ++
      (u32le artifactLen ++ (srb ++ (sra ++ (agg ++
      (i64le timestamp ++ dsHash)))))))))) := by
    simpa using hform
  have d8 := step 0 8 _ _ d0 hdisc
  have d24 := step 8 16 _ _ d8 hai
  have d56 := step 24 32 _ _ d24 hph
  have d64 := step 56 8 _ _ d56 (length_enc64 _)
  have d72 := step 64 8 _ _ d64 (length_enc64 _)
  have d80 := step 72 8 _ _ d72 (length_enc64 _)
  have d84 := step 80 4 _ _ d80 (length_u32le _)
  have d116 := step 84 32 _ _ d84 hsrb
  have d148 := step 116 32 _ _ d116 hsra
  have d180 := step 148 32 _ _ d148 hagg
  have d188 := step 180 8 _ _ d180 (length_i64le _)
  refine ⟨?_, ?_, ?_, ?_, ?_, ?_, ?_, ?_, ?_, ?_, ?_, ?_, d188⟩
  · rw [hform]
    simp [hdisc, length_enc64, length_u32le, length_i64le, hai, hph, hsrb,
      hsra, hagg, hds]
  · have h : d.take 8 = sha256_8 sha256 "global:anchor_proof" := by
      rw [hform]; exact take_append_left hdisc
    rw [h]; rfl
  · rw [d8]; exact take_append_left hai
  · rw [d24]; exact take_append_left hph
  · rw [d56]; exact take_append_left (length_enc64 _)
  · rw [d64]; exact take_append_left (length_enc64 _)
  · rw [d72]; exact take_append_left (length_enc64 _)
  · rw [d80]; exact take_append_left (length_u32le _)
  · rw [d84]; exact take_append_left hsrb
  · rw [d116]; exact take_append_left hsra
  · rw [d148]; exact take_append_left hagg
  · rw [d180]; exact take_append_left (length_i64le _)

theorem C2_anchor_payload_layout_witness :
    (anchorInstructionData (fun l => (l ++ List.replicate 32 0).take 32)
        (List.replicate 16 1) (List.replicate 32 2) 1 1 1 4
        (List.replicate 32 3) (List.replicate 32 4) (List.replicate 32 5)
        7 (List.replicate 32 6)).length = 220 ∧
    (anchorInstructionData (fun l => (l ++ List.replicate 32 0).take 32)
        (List.replicate 16 1) (List.replicate 32 2) 1 1 1 4
        (List.replicate 32 3) (List.replicate 32 4) (List.replicate 32 5)
        7 (List.replicate 32 6)).drop 188 = List.replicate 32 6 :=
  ⟨(C2_anchor_payload_layout (fun l => (l ++ List.replicate 32 0).take 32)
      (by simp) _ _ _ _ _ _ 1 1 1 4 7 (by simp) (by simp) (by simp) (by simp)
      (by simp) (by simp) (by norm_num) (by norm_num) (by norm_num)
      (by norm_num) (by norm_num) (by norm_num) _ rfl).1,
   (C2_anchor_payload_layout (fun l => (l ++ List.replicate 32 0).take 32)
      (by simp) _ _ _ _ _ _ 1 1 1 4 7 (by simp) (by simp) (by simp) (by simp)
      (by simp) (by simp) (by norm_num) (by norm_num) (by norm_num)
      (by norm_num) (by norm_num) (by norm_num) _
      rfl).2.2.2.2.2.2.2.2.2.2.2.2⟩

/-! ## Hex / UUID rendering (crypto.ts `uuidFromHash32`, codec.ts `uuidFrom16`)

`hexChars` is `Buffer.toString("hex")` character by character (lowercase).
`uuidFrom16` is the 8-4-4-4-12 dashed slicing both files perform. -/

def hexDigit (n : Nat) : Char :=
  if n < 10 then Char.ofNat (48 + n) else Char.ofNat (87 + n)

def hexChars (bs : List Nat) : List Char :=
  bs.flatMap (fun b => [hexDigit (b / 16 % 16), hexDigit (b % 16)])

def uuidFrom16 (bs : List Nat) : String :=
  let h := hexChars bs
  String.mk (h.take 8) ++ "-" ++ String.mk ((h.drop 8).take 4) ++ "-" ++
    String.mk ((h.drop 12).take 4) ++ "-" ++ String.mk ((h.drop 16).take 4) ++
    "-" ++ String.mk (h.drop 20)

/-- Embeds crypto.ts `uuidFromHash32`: take the first 16 bytes of the hash,
force the version nibble of byte 6 to `0100` (`(x & 0x0f) | 0x40`, written
`x % 16 + 64`) and the top two bits of byte 8 to `10`
(`(x & 0x3f) | 0x80`, written `x % 64 + 128`), then render with dashes.
A hash shorter than 16 bytes throws in the TypeScript; here that is the
`Except.error` branch. -/
def uuidFromHash32 (hash : List Nat) : Except String String :=
  if hash.length < 16 then Except.error "hash must be at least 16 bytes"
  else
    let b := hash.take 16
    let b6 := b.getD 6 0
    let b8 := b.getD 8 0
    let b2 := (b.set 6 (b6 % 16 + 64)).set 8 (b8 % 64 + 128)
    Except.ok (uuidFrom16 b2)

/-! ## Indexer account decoders (src/indexer/src/codec.ts)

Byte windows are read at the fixed offsets the TypeScript cursor `o` reaches.
The TypeScript renders `submitted_by`, `aggregator_pubkey`, `pubkey` and
`escrow` through `bs58.encode`, an injective rendering of the same 32 raw
bytes; the model keeps the raw bytes.  `num_accepts` is rendered in decimal
exactly as `BigInt.toString` does. -/

def fld (data : List Nat) (o n : Nat) : List Nat := (data.drop o).take n

structure DecodedProofRecord where
  artifact_id : String
  start_slot : Nat
  end_slot : Nat
  proof_hash : List Nat
  artifact_len : Nat
  state_root_before : List Nat
  state_root_after : List Nat
  submitted_by : List Nat
  aggregator_pubkey : List Nat
  timestamp : Int
  seq : Nat
  ds_hash : List Nat
  deriving Repr, DecidableEq

def decodeProofRecord (data : List Nat) : DecodedProofRecord where
  artifact_id := uuidFrom16 (fld data 8 16)
  start_slot := leToNat (fld data 24 8)
  end_slot := leToNat (fld data 32 8)
  proof_hash := fld data 40 32
  artifact_len := leToNat (fld data 72 4)
  state_root_before := fld data 76 32
  state_root_after := fld data 108 32
  submitted_by := fld data 140 32
  aggregator_pubkey := fld data 172 32
  timestamp := i64FromLe (fld data 204 8)
  seq := leToNat (fld data 212 8)
  ds_hash := fld data 220 32

structure DecodedValidatorRecord where
  pubkey : List Nat
  escrow : List Nat
  lock_ts : Int
  status : String
  num_accepts : String
  deriving Repr, DecidableEq

def decodeValidatorRecord (data : List Nat) : DecodedValidatorRecord where
  pubkey := fld data 8 32
  escrow := fld data 40 32
  lock_ts := i64FromLe (fld data 72 8)
  status := if data.getD 80 0 = 0 then "Active" else "Unlocked"
  num_accepts := toString (leToNat (fld data 81 8))

/-! ## Little-endian round-trips -/

theorem leToNat_enc64 (n : Nat) (h : n < 2 ^ 64) : leToNat (enc64 n) = n := by
  have h8 : List.range 8 = [0, 1, 2, 3, 4, 5, 6, 7] := rfl
  simp only [enc64, leToNat, h8, List.map_cons, List.map_nil, List.foldr]
  norm_num
  omega

theorem leToNat_u32le (n : Nat) (h : n < 2 ^ 32) : leToNat (u32le n) = n := by
  have h4 : List.range 4 = [0, 1, 2, 3] := rfl
  have hm : n % 2 ^ 32 = n := Nat.mod_eq_of_lt h
  simp only [u32le, hm, h4, List.map_cons, List.map_nil, leToNat, List.foldr]
  norm_num
  omega

theorem i64FromLe_i64le (t : Int) (h1 : -(2 ^ 63) ≤ t) (h2 : t < 2 ^ 63) :
    i64FromLe (i64le t) = t := by
  have e64 : ((2 : Int) ^ 64) = 18446744073709551616 := by norm_num
  have hnonneg : (0 : Int) ≤ t % (2 : Int) ^ 64 := by rw [e64]; omega
  have hlt : t % (2 : Int) ^ 64 < (2 : Int) ^ 64 := by rw [e64]; omega
  have hu : (t % (2 : Int) ^ 64).toNat < 2 ^ 64 := by
    omega
  have hcast : ((t % (2 : Int) ^ 64).toNat : Int) = t % (2 : Int) ^ 64 :=
    Int.toNat_of_nonneg hnonneg
  unfold i64le i64FromLe
  rw [leToNat_enc64 _ hu]
  dsimp only
  split
  · omega
  · omega

/-- A list of length at least 16 starts with 16 explicit elements. -/
theorem exists_cons16 (l : List Nat) (h : 16 ≤ l.length) :
    ∃ b0 b1 b2 b3 b4 b5 b6 b7 b8 b9 b10 b11 b12 b13 b14 b15 t,
      l = b0 :: b1 :: b2 :: b3 :: b4 :: b5 :: b6 :: b7 :: b8 :: b9 :: b10 ::
        b11 :: b12 :: b13 :: b14 :: b15 :: t := by
  rcases l with _ | ⟨b0, l⟩; · simp at h
  rcases l with _ | ⟨b1, l⟩; · simp at h
  rcases l with _ | ⟨b2, l⟩; · simp at h
  rcases l with _ | ⟨b3, l⟩; · simp at h
  rcases l with _ | ⟨b4, l⟩; · simp at h
  rcases l with _ | ⟨b5, l⟩; · simp at h
  rcases l with _ | ⟨b6, l⟩; · simp at h
  rcases l with _ | ⟨b7, l⟩; · simp at h
  rcases l with _ | ⟨b8, l⟩; · simp at h
  rcases l with _ | ⟨b9, l⟩; · simp at h
  rcases l with _ | ⟨b10, l⟩; · simp at h
  rcases l with _ | ⟨b11, l⟩; · simp at h
  rcases l with _ | ⟨b12, l⟩; · simp at h
  rcases l with _ | ⟨b13, l⟩; · simp at h
  rcases l with _ | ⟨b14, l⟩; · simp at h
  rcases l with _ | ⟨b15, l⟩; · simp at h
  exact ⟨b0, b1, b2, b3, b4, b5, b6, b7, b8, b9, b10, b11, b12, b13, b14, b15,
    l, rfl⟩

theorem drop_chunk (d : List Nat) (k j : Nat) (a rest : List Nat)
    (hk : d.drop k = a ++ rest) (ha : a.length = j) :
    d.drop (k + j) = rest := by
  have h : d.drop (k + j) = (d.drop k).drop j := by
    rw [List.drop_drop]
  rw [h, hk]; exact drop_append_left ha

/-- C3 counterexample: the indexer's `decodeProofRecord` does NOT read the
fields at the offsets at which `encodeAnchorProofArgsBorsh` writes them.
Concretely, encode an instruction whose proof_hash field is 32 bytes of `1`
(every other field zero, with a 32-byte stand-in for the SHA-256 library
call), pad the 220-byte instruction so that every decoder read is in range,
and decode: the decoder's `proof_hash` window (payload offsets 32..64, where
the encoder put seq/start_slot after only 16 bytes of proof_hash) returns
bytes different from the encoded proof_hash. -/
theorem C3_decode_offsets_counterexample :
    (decodeProofRecord
      (encodeAnchorProofArgsBorsh (fun _ => List.replicate 32 0)
        { artifactId := List.replicate 16 0
          proofHash32 := List.replicate 32 1
          seqLe := enc64 0
          startLe := enc64 0
          endLe := enc64 0
          artifactLen := 0
          stateRootBefore := List.replicate 32 0
          stateRootAfter := List.replicate 32 0
          aggregatorPubkey := List.replicate 32 0
          timestampLe := i64le 0
          dsHash32 := List.replicate 32 0 } ++ List.replicate 32 0)).proof_hash
      ≠ List.replicate 32 1 := by decide

/-- C3 (amended): `decodeProofRecord` reads, after the 8-byte discriminator,
a 244-byte payload in the order artifact_id (16), start_slot (u64 LE),
end_slot (u64 LE), proof_hash (32), artifact_len (u32 LE),
state_root_before (32), state_root_after (32), submitted_by (32),
aggregator_pubkey (32), timestamp (i64 LE), seq (u64 LE), ds_hash (32) —
i.e. the on-ledger ProofRecord account layout, which differs from the §4.4
instruction payload in field order and by the extra submitted_by field.
Stated as a lossless round-trip over exactly that layout. -/
theorem C3_decodeProofRecord_layout (disc a p b f sub agg dtl : List Nat)
    (s e q l : Nat) (t : Int)
    (hdisc : disc.length = 8) (ha : a.length = 16) (hp : p.length = 32)
    (hb : b.length = 32) (hf : f.length = 32) (hsub : sub.length = 32)
    (hagg : agg.length = 32) (hdtl : dtl.length = 32)
    (hs : s < 2 ^ 64) (he : e < 2 ^ 64) (hq : q < 2 ^ 64) (hl : l < 2 ^ 32)
    (ht1 : -(2 ^ 63) ≤ t) (ht2 : t < 2 ^ 63) (data : List Nat)
    (hdata : data = disc ++ a ++ enc64 s ++ enc64 e ++ p ++ u32le l ++ b ++
      f ++ sub ++ agg ++ i64le t ++ enc64 q ++ dtl) :
    decodeProofRecord data =
      ⟨uuidFrom16 a, s, e, p, l, b, f, sub, agg, t, q, dtl⟩ := by
  have d0 : data.drop 0 = disc ++ (a ++ (enc64 s ++ (enc64 e ++ (p ++
      (u32le l ++ (b ++ (f ++ (sub ++ (agg ++ (i64le t ++
      (enc64 q ++ dtl))))))))))) := by
    simp [hdata, List.append_assoc]
  have d8 := drop_chunk data 0 8 _ _ d0 hdisc
  have d24 := drop_chunk data 8 16 _ _ d8 ha
  have d32 := drop_chunk data 24 8 _ _ d24 (length_enc64 _)
  have d40 := drop_chunk data 32 8 _ _ d32 (length_enc64 _)
  have d72 := drop_chunk data 40 32 _ _ d40 hp
  have d76 := drop_chunk data 72 4 _ _ d72 (length_u32le _)
  have d108 := drop_chunk data 76 32 _ _ d76 hb
  have d140 := drop_chunk data 108 32 _ _ d108 hf
  have d172 := drop_chunk data 140 32 _ _ d140 hsub
  have d204 := drop_chunk data 172 32 _ _ d172 hagg
  have d212 := drop_chunk data 204 8 _ _ d204 (length_i64le _)
  have d220 := drop_chunk data 212 8 _ _ d212 (length_enc64 _)
  have w8 : fld data 8 16 = a := by
    rw [fld, d8]; exact take_append_left ha
  have w24 : fld data 24 8 = enc64 s := by
    rw [fld, d24]; exact take_append_left (length_enc64 _)
  have w32 : fld data 32 8 = enc64 e := by
    rw [fld, d32]; exact take_append_left (length_enc64 _)
  have w40 : fld data 40 32 = p := by
    rw [fld, d40]; exact take_append_left hp
  have w72 : fld data 72 4 = u32le l := by
    rw [fld, d72]; exact take_append_left (length_u32le _)
  have w76 : fld data 76 32 = b := by
    rw [fld, d76]; exact take_append_left hb
  have w108 : fld data 108 32 = f := by
    rw [fld, d108]; exact take_append_left hf
  have w140 : fld data 140 32 = sub := by
    rw [fld, d140]; exact take_append_left hsub
  have w172 : fld data 172 32 = agg := by
    rw [fld, d172]; exact take_append_left hagg
  have w204 : fld data 204 8 = i64le t := by
    rw [fld, d204]; exact take_append_left (length_i64le _)
  have w212 : fld data 212 8 = enc64 q := by
    rw [fld, d212]; exact take_append_left (length_enc64 _)
  have w220 : fld data 220 32 = dtl := by
    rw [fld, d220, ← hdtl, List.take_length]
  unfold decodeProofRecord
  rw [w8, w24, w32, w40, w72, w76, w108, w140, w172, w204, w212, w220,
    leToNat_enc64 s hs, leToNat_enc64 e he, leToNat_u32le l hl,
    i64FromLe_i64le t ht1 ht2, leToNat_enc64 q hq]

theorem C3_decodeProofRecord_layout_witness :
    decodeProofRecord (List.replicate 8 9 ++ List.replicate 16 1 ++ enc64 2 ++
      enc64 3 ++ List.replicate 32 4 ++ u32le 5 ++ List.replicate 32 6 ++
      List.replicate 32 7 ++ List.replicate 32 8 ++ List.replicate 32 10 ++
      i64le 11 ++ enc64 12 ++ List.replicate 32 13) =
    ⟨uuidFrom16 (List.replicate 16 1), 2, 3, List.replicate 32 4, 5,
      List.replicate 32 6, List.replicate 32 7, List.replicate 32 8,
      List.replicate 32 10, 11, 12, List.replicate 32 13⟩ :=
  C3_decodeProofRecord_layout _ _ _ _ _ _ _ _ 2 3 12 5 11
    (by simp) (by simp) (by simp) (by simp) (by simp) (by simp) (by simp)
    (by simp) (by norm_num) (by norm_num) (by norm_num) (by norm_num)
    (by norm_num) (by norm_num) _ rfl

/-- Unconditional reduction of `uuidFromHash32` on a hash of at least
16 bytes. -/
theorem uuidFromHash32_eq (hash : List Nat) (h : 16 ≤ hash.length) :
    uuidFromHash32 hash = Except.ok (uuidFrom16
      (((hash.take 16).set 6 ((hash.take 16).getD 6 0 % 16 + 64)).set 8
        ((hash.take 16).getD 8 0 % 64 + 128))) := by
  unfold uuidFromHash32
  rw [if_neg (by omega)]

set_option maxHeartbeats 1600000 in
/-- C8: for every hash of at least 16 bytes, `uuidFromHash32` succeeds and
returns the dashed rendering of the first 16 bytes with the version nibble
of byte 6 forced to `0100` and the top two bits of byte 8 forced to `10`:
the string has length 36, dashes at positions 8, 13, 18 and 23, the version
character (position 14) is `4`, the variant character (position 19) is one
of `8`, `9`, `a`, `b`, and the result depends only on the first 16 bytes of
the hash (determinism). -/
theorem C8_uuidFromHash32_v4 (hash : List Nat) (h16 : 16 ≤ hash.length)
    (hbytes : ∀ x ∈ hash, x < 256) :
    ∃ s, uuidFromHash32 hash = Except.ok s ∧ s.length = 36 ∧
      s.data.getD 8 'x' = '-' ∧ s.data.getD 13 'x' = '-' ∧
      s.data.getD 18 'x' = '-' ∧ s.data.getD 23 'x' = '-' ∧
      s.data.getD 14 'x' = '4' ∧
      (s.data.getD 19 'x' = '8' ∨ s.data.getD 19 'x' = '9' ∨
        s.data.getD 19 'x' = 'a' ∨ s.data.getD 19 'x' = 'b') ∧
      ∀ hash2, 16 ≤ hash2.length → hash2.take 16 = hash.take 16 →
        uuidFromHash32 hash2 = Except.ok s := by
  obtain ⟨b0, b1, b2, b3, b4, b5, b6, b7, b8, b9, b10, b11, b12, b13, b14,
    b15, tl, rfl⟩ := exists_cons16 hash h16
  refine ⟨uuidFrom16 [b0, b1, b2, b3, b4, b5, b6 % 16 + 64, b7,
    b8 % 64 + 128, b9, b10, b11, b12, b13, b14, b15], ?_, ?_, ?_, ?_, ?_, ?_,
    ?_, ?_, ?_⟩
  · rw [uuidFromHash32_eq _ h16]; rfl
  · rfl
  · rfl
  · rfl
  · rfl
  · rfl
  · show hexDigit ((b6 % 16 + 64) / 16 % 16) = '4'
    have h6 : (b6 % 16 + 64) / 16 % 16 = 4 := by omega
    rw [h6]; decide
  · show hexDigit ((b8 % 64 + 128) / 16 % 16) = '8' ∨
      hexDigit ((b8 % 64 + 128) / 16 % 16) = '9' ∨
      hexDigit ((b8 % 64 + 128) / 16 % 16) = 'a' ∨
      hexDigit ((b8 % 64 + 128) / 16 % 16) = 'b'
    have h19 : (b8 % 64 + 128) / 16 % 16 = 8 ∨ (b8 % 64 + 128) / 16 % 16 = 9 ∨
        (b8 % 64 + 128) / 16 % 16 = 10 ∨ (b8 % 64 + 128) / 16 % 16 = 11 := by
      omega
    rcases h19 with h | h | h | h
    · exact Or.inl (by rw [h]; decide)
    · exact Or.inr (Or.inl (by rw [h]; decide))
    · exact Or.inr (Or.inr (Or.inl (by rw [h]; decide)))
    · exact Or.inr (Or.inr (Or.inr (by rw [h]; decide)))
  · intro hash2 hl2 ht2
    rw [uuidFromHash32_eq _ hl2, ht2]; rfl

theorem C8_uuidFromHash32_v4_witness :
    ∃ s, uuidFromHash32 (List.range 16) = Except.ok s ∧ s.length = 36 ∧
      s.data.getD 14 'x' = '4' := by
  obtain ⟨s, hok, hlen, _, _, _, _, h14, _, _⟩ :=
    C8_uuidFromHash32_v4 (List.range 16) (by decide) (by decide)
  exact ⟨s, hok, hlen, h14⟩

/-- C10: `decodeValidatorRecord` is total on the status byte, which lives at
payload offset 72 after the 8-byte discriminator (absolute offset 80, after
pubkey (32), escrow (32) and lock_ts (8)): the decoded status is `Active`
exactly when that byte is 0, and `Unlocked` for every nonzero value of the
byte, never a failure. -/
theorem C10_validator_status_total (data : List Nat) (h : 89 ≤ data.length) :
    ((decodeValidatorRecord data).status = "Active" ∨
      (decodeValidatorRecord data).status = "Unlocked") ∧
    ((decodeValidatorRecord data).status = "Active" ↔
      data.getD (8 + 72) 0 = 0) ∧
    ∀ b, data.getD (8 + 72) 0 = b → b ≠ 0 →
      (decodeValidatorRecord data).status = "Unlocked" := by
  have hne : ("Active" : String) ≠ "Unlocked" := by decide
  have hst : (decodeValidatorRecord data).status =
      if data.getD 80 0 = 0 then "Active" else "Unlocked" := rfl
  by_cases h0 : data.getD 80 0 = 0
  · rw [hst, if_pos h0]
    exact ⟨Or.inl rfl, ⟨fun _ => h0, fun _ => rfl⟩,
      fun b hb hbne => absurd (hb.symm.trans h0) hbne⟩
  · rw [hst, if_neg h0]
    exact ⟨Or.inr rfl, ⟨fun hc => absurd hc.symm hne, fun hc => absurd hc h0⟩,
      fun _ _ _ => rfl⟩

theorem C10_validator_status_total_witness :
    (decodeValidatorRecord (List.range 89)).status = "Unlocked" :=
  (C10_validator_status_total (List.range 89) (by decide)).2.2 80
    (by decide) (by decide)

/-! ## Aggregator key schedule and signing step (part of the `/anchor`
handler, orchestrator server)

`fetchConfig` returns the four on-chain configuration fields; the handler
computes `allowedAgg = seq >= cfg.activation_seq ? next : current`, signs the
110-byte preimage `ds` with `nacl.sign.detached` (a parameter here), derives
the local public key from the loaded secret (the `aggPub` parameter), and
rejects with HTTP 400 `AggregatorKeyMismatch` when that key differs from the
allowed one (`bytesEq` is list equality). -/

structure AnchorConfig where
  aggregator_pubkey : List Nat
  next_aggregator_pubkey : List Nat
  activation_seq : Nat
  chain_id : Nat

def allowedAggregator (seq : Nat) (cfg : AnchorConfig) : List Nat :=
  if cfg.activation_seq ≤ seq then cfg.next_aggregator_pubkey
  else cfg.aggregator_pubkey

structure ErrorBody where
  http : Nat
  code : String
  deriving Repr, DecidableEq

def anchorSignStep (sign : List Nat → List Nat) (aggPub : List Nat)
    (seq : Nat) (cfg : AnchorConfig) (ds : List Nat) :
    Except ErrorBody (List Nat) :=
  let signature := sign ds
  if aggPub ≠ allowedAggregator seq cfg then
    Except.error ⟨400, "AggregatorKeyMismatch"⟩
  else Except.ok signature

/-- C4: the allowed aggregator pubkey is `next_aggregator_pubkey` when
`seq ≥ activation_seq` and `aggregator_pubkey` otherwise; the `/anchor`
signing step fails with HTTP 400 and code `AggregatorKeyMismatch` exactly
when the locally loaded public key differs from the allowed pubkey for that
seq; and on success the produced signature is the Ed25519 detached signature
applied to the 110-byte preimage itself (`ds`, of length 110), not to its
digest. -/
theorem C4_anchor_key_check (sign blake3 : List Nat → List Nat)
    (aggPub : List Nat) (cfg : AnchorConfig) (chainId : Nat)
    (programId proofHash : List Nat) (startSlot endSlot seq : Nat)
    (hpid : programId.length = 32) (hph : proofHash.length = 32)
    (ds : List Nat)
    (hds : ds =
      (buildDS blake3 chainId programId proofHash startSlot endSlot seq).ds) :
    (cfg.activation_seq ≤ seq →
      allowedAggregator seq cfg = cfg.next_aggregator_pubkey) ∧
    (seq < cfg.activation_seq →
      allowedAggregator seq cfg = cfg.aggregator_pubkey) ∧
    (anchorSignStep sign aggPub seq cfg ds =
        Except.error ⟨400, "AggregatorKeyMismatch"⟩ ↔
      aggPub ≠ allowedAggregator seq cfg) ∧
    (aggPub = allowedAggregator seq cfg →
      anchorSignStep sign aggPub seq cfg ds = Except.ok (sign ds)) ∧
    ds.length = 110 := by
  refine ⟨fun hge => ?_, fun hlt => ?_, ?_, fun heq => ?_, ?_⟩
  · rw [allowedAggregator, if_pos hge]
  · rw [allowedAggregator, if_neg (by omega)]
  · unfold anchorSignStep
    by_cases hne : aggPub = allowedAggregator seq cfg
    · simp [hne]
    · simp [hne]
  · unfold anchorSignStep
    simp [heq]
  · rw [hds]
    simp [buildDS, length_dsTag, length_enc64, hpid, hph]

theorem C4_anchor_key_check_witness :
    anchorSignStep (fun l => l) (List.replicate 32 7) 3
      ⟨List.replicate 32 7, List.replicate 32 9, 5, 103⟩
      (buildDS (fun l => l.take 32) 103 (List.replicate 32 0)
        (List.replicate 32 0) 1 2 3).ds =
      Except.ok ((buildDS (fun l => l.take 32) 103 (List.replicate 32 0)
        (List.replicate 32 0) 1 2 3).ds) ∧
    (buildDS (fun l => l.take 32) 103 (List.replicate 32 0)
      (List.replicate 32 0) 1 2 3).ds.length = 110 :=
  ⟨(C4_anchor_key_check (fun l => l) (fun l => l.take 32) (List.replicate 32 7)
      ⟨List.replicate 32 7, List.replicate 32 9, 5, 103⟩ 103 _ _ 1 2 3
      (by simp) (by simp) _ rfl).2.2.2.1 (by decide),
   (C4_anchor_key_check (fun l => l) (fun l => l.take 32) (List.replicate 32 7)
      ⟨List.replicate 32 7, List.replicate 32 9, 5, 103⟩ 103 _ _ 1 2 3
      (by simp) (by simp) _ rfl).2.2.2.2⟩

/-! ## Verifier error mapping (src/orchestrator/src/errors.ts)

Each arm of `mapProgramError` tests a case-insensitive regex
`/Name|code/i` against the message; this is case-insensitive substring
containment, embedded here as ASCII lowercasing of both sides followed by
infix search (the patterns are all ASCII, for which JavaScript `/i`
canonicalization coincides with ASCII case folding).  The TypeScript also
carries the message and null details through; the embedding keeps the
(HTTP status, code) pair the claim is about. -/

def lowerChar (c : Char) : Char :=
  if 65 ≤ c.toNat ∧ c.toNat ≤ 90 then Char.ofNat (c.toNat + 32) else c

def lowerChars (s : String) : List Char :=
  s.data.map lowerChar

def listStartsWith : List Char → List Char → Bool
  | [], _ => true
  | _ :: _, [] => false
  | p :: ps, c :: cs => p = c && listStartsWith ps cs

def listHasInfix (pat : List Char) : List Char → Bool
  | [] => listStartsWith pat []
  | c :: cs => listStartsWith pat (c :: cs) || listHasInfix pat cs

def containsCI (msg pat : String) : Bool :=
  listHasInfix (lowerChars pat) (lowerChars msg)

def mapProgramError (msg : String) : Nat × String :=
  if containsCI msg "BadEd25519Order" || containsCI msg "6015" then
    (400, "BadEd25519Order")
  else if containsCI msg "BadDomainSeparation" || containsCI msg "6016" then
    (400, "BadDomainSeparation")
  else if containsCI msg "NonMonotonicSeq" || containsCI msg "6012" then
    (400, "NonMonotonicSeq")
  else if containsCI msg "RangeOverlap" || containsCI msg "6013" then
    (400, "RangeOverlap")
  else if containsCI msg "ClockSkew" || containsCI msg "6014" then
    (400, "ClockSkew")
  else if containsCI msg "AggregatorMismatch" || containsCI msg "6006" then
    (400, "AggregatorMismatch")
  else if containsCI msg "InvalidMint" || containsCI msg "6000" then
    (400, "InvalidMint")
  else if containsCI msg "Paused" || containsCI msg "6010" then
    (403, "Paused")
  else (500, "AnchorSubmitFailed")

/-- The §4.4 error table: match tokens (name, numeric code) and the mapped
(HTTP status, code). -/
def errorTable : List ((String × String) × (Nat × String)) :=
  [(("BadEd25519Order", "6015"), (400, "BadEd25519Order")),
   (("BadDomainSeparation", "6016"), (400, "BadDomainSeparation")),
   (("NonMonotonicSeq", "6012"), (400, "NonMonotonicSeq")),
   (("RangeOverlap", "6013"), (400, "RangeOverlap")),
   (("ClockSkew", "6014"), (400, "ClockSkew")),
   (("AggregatorMismatch", "6006"), (400, "AggregatorMismatch")),
   (("InvalidMint", "6000"), (400, "InvalidMint")),
   (("Paused", "6010"), (403, "Paused"))]

def rowMatches (msg : String) (row : (String × String) × (Nat × String)) :
    Bool :=
  containsCI msg row.1.1 || containsCI msg row.1.2

/-- C7: `mapProgramError` returns exactly the (HTTP status, code) of the
§4.4 table row whose match token (error name or numeric code, matched
case-insensitively) occurs in the error message — stated for messages in
which exactly one row's tokens occur — and returns (500, AnchorSubmitFailed)
for any message in which no listed token occurs. -/
theorem C7_mapProgramError_table (msg : String) :
    ((∀ row ∈ errorTable, rowMatches msg row = false) →
      mapProgramError msg = (500, "AnchorSubmitFailed")) ∧
    (∀ row ∈ errorTable, rowMatches msg row = true →
      (∀ row2 ∈ errorTable, row2 ≠ row → rowMatches msg row2 = false) →
      mapProgramError msg = row.2) := by
  constructor
  · intro hall
    have e0 : (containsCI msg "BadEd25519Order" || containsCI msg "6015") =
        false := hall (("BadEd25519Order", "6015"), (400, "BadEd25519Order")) (by simp [errorTable])
    have e1 : (containsCI msg "BadDomainSeparation" ||
        containsCI msg "6016") = false := hall (("BadDomainSeparation", "6016"), (400, "BadDomainSeparation")) (by simp [errorTable])
    have e2 : (containsCI msg "NonMonotonicSeq" || containsCI msg "6012") =
        false := hall (("NonMonotonicSeq", "6012"), (400, "NonMonotonicSeq")) (by simp [errorTable])
    have e3 : (containsCI msg "RangeOverlap" || containsCI msg "6013") =
        false := hall (("RangeOverlap", "6013"), (400, "RangeOverlap")) (by simp [errorTable])
    have e4 : (containsCI msg "ClockSkew" || containsCI msg "6014") =
        false := hall (("ClockSkew", "6014"), (400, "ClockSkew")) (by simp [errorTable])
    have e5 : (containsCI msg "AggregatorMismatch" ||
        containsCI msg "6006") = false := hall (("AggregatorMismatch", "6006"), (400, "AggregatorMismatch")) (by simp [errorTable])
    have e6 : (containsCI msg "InvalidMint" || containsCI msg "6000") =
        false := hall (("InvalidMint", "6000"), (400, "InvalidMint")) (by simp [errorTable])
    have e7 : (containsCI msg "Paused" || containsCI msg "6010") = false :=
      hall (("Paused", "6010"), (403, "Paused")) (by simp [errorTable])
    simp [mapProgramError, e0, e1, e2, e3, e4, e5, e6, e7]
  · intro row hrow hmatch hothers
    fin_cases hrow
    · have m : (containsCI msg "BadEd25519Order" ||
          containsCI msg "6015") = true := hmatch
      simp [mapProgramError, m]
    · have m : (containsCI msg "BadDomainSeparation" ||
          containsCI msg "6016") = true := hmatch
      have e0 : (containsCI msg "BadEd25519Order" ||
          containsCI msg "6015") = false :=
        hothers (("BadEd25519Order", "6015"), (400, "BadEd25519Order")) (by simp [errorTable]) (by decide)
      simp [mapProgramError, m, e0]
    · have m : (containsCI msg "NonMonotonicSeq" ||
          containsCI msg "6012") = true := hmatch
      have e0 : (containsCI msg "BadEd25519Order" ||
          containsCI msg "6015") = false :=
        hothers (("BadEd25519Order", "6015"), (400, "BadEd25519Order")) (by simp [errorTable]) (by decide)
      have e1 : (containsCI msg "BadDomainSeparation" ||
          containsCI msg "6016") = false :=
        hothers (("BadDomainSeparation", "6016"), (400, "BadDomainSeparation")) (by simp [errorTable]) (by decide)
      simp [mapProgramError, m, e0, e1]
    · have m : (containsCI msg "RangeOverlap" ||
          containsCI msg "6013") = true := hmatch
      have e0 : (containsCI msg "BadEd25519Order" ||
          containsCI msg "6015") = false :=
        hothers (("BadEd25519Order", "6015"), (400, "BadEd25519Order")) (by simp [errorTable]) (by decide)
      have e1 : (containsCI msg "BadDomainSeparation" ||
          containsCI msg "6016") = false :=
        hothers (("BadDomainSeparation", "6016"), (400, "BadDomainSeparation")) (by simp [errorTable]) (by decide)
      have e2 : (containsCI msg "NonMonotonicSeq" ||
          containsCI msg "6012") = false :=
        hothers (("NonMonotonicSeq", "6012"), (400, "NonMonotonicSeq")) (by simp [errorTable]) (by decide)
      simp [mapProgramError, m, e0, e1, e2]
    · have m : (containsCI msg "ClockSkew" || containsCI msg "6014") =
          true := hmatch
      have e0 : (containsCI msg "BadEd25519Order" ||
          containsCI msg "6015") = false :=
        hothers (("BadEd25519Order", "6015"), (400, "BadEd25519Order")) (by simp [errorTable]) (by decide)
      have e1 : (containsCI msg "BadDomainSeparation" ||
          containsCI msg "6016") = false :=
        hothers (("BadDomainSeparation", "6016"), (400, "BadDomainSeparation")) (by simp [errorTable]) (by decide)
      have e2 : (containsCI msg "NonMonotonicSeq" ||
          containsCI msg "6012") = false :=
        hothers (("NonMonotonicSeq", "6012"), (400, "NonMonotonicSeq")) (by simp [errorTable]) (by decide)
      have e3 : (containsCI msg "RangeOverlap" ||
          containsCI msg "6013") = false :=
        hothers (("RangeOverlap", "6013"), (400, "RangeOverlap")) (by simp [errorTable]) (by decide)
      simp [mapProgramError, m, e0, e1, e2, e3]
    · have m : (containsCI msg "AggregatorMismatch" ||
          containsCI msg "6006") = true := hmatch
      have e0 : (containsCI msg "BadEd25519Order" ||
          containsCI msg "6015") = false :=
        hothers (("BadEd25519Order", "6015"), (400, "BadEd25519Order")) (by simp [errorTable]) (by decide)
      have e1 : (containsCI msg "BadDomainSeparation" ||
          containsCI msg "6016") = false :=
        hothers (("BadDomainSeparation", "6016"), (400, "BadDomainSeparation")) (by simp [errorTable]) (by decide)
      have e2 : (containsCI msg "NonMonotonicSeq" ||
          containsCI msg "6012") = false :=
        hothers (("NonMonotonicSeq", "6012"), (400, "NonMonotonicSeq")) (by simp [errorTable]) (by decide)
      have e3 : (containsCI msg "RangeOverlap" ||
          containsCI msg "6013") = false :=
        hothers (("RangeOverlap", "6013"), (400, "RangeOverlap")) (by simp [errorTable]) (by decide)
      have e4 : (containsCI msg "ClockSkew" || containsCI msg "6014") =
          false := hothers (("ClockSkew", "6014"), (400, "ClockSkew")) (by simp [errorTable]) (by decide)
      simp [mapProgramError, m, e0, e1, e2, e3, e4]
    · have m : (containsCI msg "InvalidMint" || containsCI msg "6000") =
          true := hmatch
      have e0 : (containsCI msg "BadEd25519Order" ||
          containsCI msg "6015") = false :=
        hothers (("BadEd25519Order", "6015"), (400, "BadEd25519Order")) (by simp [errorTable]) (by decide)
      have e1 : (containsCI msg "BadDomainSeparation" ||
          containsCI msg "6016") = false :=
        hothers (("BadDomainSeparation", "6016"), (400, "BadDomainSeparation")) (by simp [errorTable]) (by decide)
      have e2 : (containsCI msg "NonMonotonicSeq" ||
          containsCI msg "6012") = false :=
        hothers (("NonMonotonicSeq", "6012"), (400, "NonMonotonicSeq")) (by simp [errorTable]) (by decide)
      have e3 : (containsCI msg "RangeOverlap" ||
          containsCI msg "6013") = false :=
        hothers (("RangeOverlap", "6013"), (400, "RangeOverlap")) (by simp [errorTable]) (by decide)
      have e4 : (containsCI msg "ClockSkew" || containsCI msg "6014") =
          false := hothers (("ClockSkew", "6014"), (400, "ClockSkew")) (by simp [errorTable]) (by decide)
      have e5 : (containsCI msg "AggregatorMismatch" ||
          containsCI msg "6006") = false :=
        hothers (("AggregatorMismatch", "6006"), (400, "AggregatorMismatch")) (by simp [errorTable]) (by decide)
      simp [mapProgramError, m, e0, e1, e2, e3, e4, e5]
    · have m : (containsCI msg "Paused" || containsCI msg "6010") = true :=
        hmatch
      have e0 : (containsCI msg "BadEd25519Order" ||
          containsCI msg "6015") = false :=
        hothers (("BadEd25519Order", "6015"), (400, "BadEd25519Order")) (by simp [errorTable]) (by decide)
      have e1 : (containsCI msg "BadDomainSeparation" ||
          containsCI msg "6016") = false :=
        hothers (("BadDomainSeparation", "6016"), (400, "BadDomainSeparation")) (by simp [errorTable]) (by decide)
      have e2 : (containsCI msg "NonMonotonicSeq" ||
          containsCI msg "6012") = false :=
        hothers (("NonMonotonicSeq", "6012"), (400, "NonMonotonicSeq")) (by simp [errorTable]) (by decide)
      have e3 : (containsCI msg "RangeOverlap" ||
          containsCI msg "6013") = false :=
        hothers (("RangeOverlap", "6013"), (400, "RangeOverlap")) (by simp [errorTable]) (by decide)
      have e4 : (containsCI msg "ClockSkew" || containsCI msg "6014") =
          false := hothers (("ClockSkew", "6014"), (400, "ClockSkew")) (by simp [errorTable]) (by decide)
      have e5 : (containsCI msg "AggregatorMismatch" ||
          containsCI msg "6006") = false :=
        hothers (("AggregatorMismatch", "6006"), (400, "AggregatorMismatch")) (by simp [errorTable]) (by decide)
      have e6 : (containsCI msg "InvalidMint" || containsCI msg "6000") =
          false := hothers (("InvalidMint", "6000"), (400, "InvalidMint")) (by simp [errorTable]) (by decide)
      simp [mapProgramError, m, e0, e1, e2, e3, e4, e5, e6]

theorem C7_mapProgramError_table_witness :
    mapProgramError "boom" = (500, "AnchorSubmitFailed") ∧
    mapProgramError "custom program error: rangeOVERLAP hit" =
      (400, "RangeOverlap") :=
  ⟨(C7_mapProgramError_table "boom").1 (by decide),
   (C7_mapProgramError_table "custom program error: rangeOVERLAP hit").2
      (("RangeOverlap", "6013"), (400, "RangeOverlap"))
      (by simp [errorTable]) (by decide) (by decide)⟩

/-! ## Canonical JSON (`canonicalize`, crypto.ts)

The value model covers exactly what the TypeScript dispatches on: null,
undefined, booleans, numbers (integers, per the §9 note that no number
normalization beyond standard literal form is performed), strings, arrays
and objects (association lists; JavaScript objects carry each key once).
`JSON.stringify` on strings is `jsonQuote`; `Array.join(",")` is
`joinComma`, with an element whose rendering is `undefined` contributing the
empty string exactly as in JavaScript.  JavaScript `Array.sort()` with no
comparator is a stable ascending sort by UTF-16 code-unit order, embedded
as `List.insertionSort` (stable) by `entryLe`.  The TypeScript sorts the
filtered key list and then renders each looked-up value; the embedding
renders each field first and then filters and sorts the rendered pairs by
key, which is the same object rendering since rendering does not depend on
position and each key occurs once. -/

inductive Js where
  | nul
  | undef
  | bool (b : Bool)
  | num (n : Int)
  | str (s : String)
  | arr (xs : List Js)
  | obj (fields : List (String × Js))

def joinComma : List String → String
  | [] => ""
  | [s] => s
  | s :: rest => s ++ "," ++ joinComma rest

def jsonEscapeChar (c : Char) : List Char :=
  if c = '"' then ['\\', '"']
  else if c = '\\' then ['\\', '\\']
  else if c = Char.ofNat 8 then ['\\', 'b']
  else if c = Char.ofNat 9 then ['\\', 't']
  else if c = Char.ofNat 10 then ['\\', 'n']
  else if c = Char.ofNat 12 then ['\\', 'f']
  else if c = Char.ofNat 13 then ['\\', 'r']
  else if c.toNat < 32 then
    ['\\', 'u', '0', '0', hexDigit (c.toNat / 16), hexDigit (c.toNat % 16)]
  else [c]

def jsonQuote (s : String) : String :=
  String.mk ('"' :: s.data.flatMap jsonEscapeChar ++ ['"'])

/-- Lexicographic less-or-equal on byte (or code-unit) sequences: the order
JavaScript string comparison induces on UTF-16 code units, and the order
the specification means by byte-wise ascending UTF-8. -/
def bytesLe : List Nat → List Nat → Bool
  | [], _ => true
  | _ :: _, [] => false
  | a :: as, b :: bs =>
    if a < b then true else if b < a then false else bytesLe as bs

def utf16CharN (v : Nat) : List Nat :=
  if v < 0x10000 then [v]
  else [0xD800 + (v - 0x10000) / 0x400, 0xDC00 + (v - 0x10000) % 0x400]

def utf16Units (s : String) : List Nat :=
  s.data.flatMap (fun c => utf16CharN c.toNat)

/-- JavaScript string order (UTF-16 code-unit lexicographic), as used by the
default `Array.sort()` comparator. -/
def keyLe (a b : String) : Prop :=
  bytesLe (utf16Units a) (utf16Units b) = true

def entryLe (p q : String × Option String) : Prop := keyLe p.1 q.1

instance : DecidableRel entryLe := fun p q => by
  unfold entryLe keyLe; infer_instance

def goodEntry (p : String × Option String) : Bool :=
  p.2.isSome && !(p.1 = "__proto__" || p.1 = "constructor" || p.1 = "prototype")

def sortEntries (ps : List (String × Option String)) :
    List (String × Option String) :=
  List.insertionSort entryLe ps

def renderEntries (ps : List (String × Option String)) : List String :=
  ps.map (fun p => jsonQuote p.1 ++ ":" ++ p.2.getD "")

mutual
def stringifyCanonical : Js → Option String
  | .nul => some "null"
  | .undef => none
  | .bool b => some (if b then "true" else "false")
  | .num n => some (toString n)
  | .str s => some (jsonQuote s)
  | .arr xs => some ("[" ++ joinComma (stringifyArr xs) ++ "]")
  | .obj fields =>
    some ("\x7b" ++ joinComma (renderEntries (sortEntries
      ((stringifyFields fields).filter goodEntry))) ++ "\x7d")
def stringifyArr : List Js → List String
  | [] => []
  | x :: xs => (stringifyCanonical x).getD "" :: stringifyArr xs
def stringifyFields : List (String × Js) → List (String × Option String)
  | [] => []
  | (k, v) :: fs => (k, stringifyCanonical v) :: stringifyFields fs
end

def canonicalize (v : Js) : Option String := stringifyCanonical v

/-- The key sequence `canonicalize` emits for an object, in output order. -/
def canonKeys (fields : List (String × Js)) : List String :=
  (sortEntries ((stringifyFields fields).filter goodEntry)).map Prod.fst

/-! ## Order facts about `bytesLe` and the UTF-8/UTF-16 encodings -/

theorem bytesLe_total : ∀ a b : List Nat,
    bytesLe a b = true ∨ bytesLe b a = true
  | [], _ => Or.inl rfl
  | _ :: _, [] => Or.inr rfl
  | a :: as, b :: bs => by
    simp only [bytesLe]
    rcases Nat.lt_trichotomy a b with h | h | h
    · left; rw [if_pos h]
    · subst h
      have := bytesLe_total as bs
      simpa [lt_irrefl] using this
    · right; rw [if_pos h]

theorem bytesLe_trans : ∀ a b c : List Nat, bytesLe a b = true →
    bytesLe b c = true → bytesLe a c = true
  | [], _, _, _, _ => rfl
  | _ :: _, [], _, h, _ => by simp [bytesLe] at h
  | _ :: _, _ :: _, [], _, h => by simp [bytesLe] at h
  | a :: as, b :: bs, c :: cs, h1, h2 => by
    simp only [bytesLe] at h1 h2 ⊢
    by_cases hab : a < b
    · by_cases hbc : b < c
      · rw [if_pos (by omega)]
      · rw [if_neg hbc] at h2
        by_cases hcb : c < b
        · rw [if_pos hcb] at h2; exact absurd h2 (by simp)
        · rw [if_pos (by omega)]
    · rw [if_neg hab] at h1
      by_cases hba : b < a
      · rw [if_pos hba] at h1; exact absurd h1 (by simp)
      · rw [if_neg hba] at h1
        have hab2 : a = b := by omega
        subst hab2
        by_cases hac : a < c
        · rw [if_pos hac]
        · rw [if_neg hac] at h2 ⊢
          by_cases hca : c < a
          · rw [if_pos hca] at h2; exact absurd h2 (by simp)
          · rw [if_neg hca] at h2 ⊢
            exact bytesLe_trans as bs cs h1 h2

instance : IsTotal (String × Option String) entryLe :=
  ⟨fun p q => bytesLe_total (utf16Units p.1) (utf16Units q.1)⟩

instance : IsTrans (String × Option String) entryLe :=
  ⟨fun _ _ _ h1 h2 => bytesLe_trans _ _ _ h1 h2⟩

theorem bytesLe_append_same : ∀ (p u v : List Nat),
    bytesLe (p ++ u) (p ++ v) = bytesLe u v
  | [], _, _ => rfl
  | a :: p, u, v => by
    simp only [List.cons_append, bytesLe, lt_irrefl, if_false]
    exact bytesLe_append_same p u v

/-- One sequence is lexicographically strictly below another with the
difference inside both: a shared lead, then a strictly smaller element. -/
def LexBelow (u v : List Nat) : Prop :=
  ∃ p x y xs ys, u = p ++ x :: xs ∧ v = p ++ y :: ys ∧ x < y

theorem bytesLe_append_of_lexBelow {u v : List Nat} (h : LexBelow u v)
    (s t : List Nat) : bytesLe (u ++ s) (v ++ t) = true := by
  obtain ⟨p, x, y, xs, ys, rfl, rfl, hxy⟩ := h
  have e1 : (p ++ x :: xs) ++ s = p ++ (x :: (xs ++ s)) := by simp
  have e2 : (p ++ y :: ys) ++ t = p ++ (y :: (ys ++ t)) := by simp
  rw [e1, e2, bytesLe_append_same]
  simp only [bytesLe, if_pos hxy]

/-- Scalar-value version of `utf8Char` (the two agree definitionally). -/
def utf8CharN (v : Nat) : List Nat :=
  if v < 0x80 then [v]
  else if v < 0x800 then [0xC0 + v / 64, 0x80 + v % 64]
  else if v < 0x10000 then [0xE0 + v / 4096, 0x80 + v / 64 % 64, 0x80 + v % 64]
  else [0xF0 + v / 0x40000, 0x80 + v / 4096 % 64, 0x80 + v / 64 % 64,
    0x80 + v % 64]

theorem utf8Char_eq_utf8CharN (c : Char) : utf8Char c = utf8CharN c.toNat :=
  rfl

/-- UTF-8 is order-preserving on scalar values up to `0xFFFF`: a strictly
smaller BMP scalar encodes to a lexicographically strictly smaller byte
sequence. -/
theorem lexBelow_utf8CharN {c d : Nat} (hcd : c < d) (hd : d < 0x10000) :
    LexBelow (utf8CharN c) (utf8CharN d) := by
  unfold utf8CharN
  by_cases hc80 : c < 0x80
  · rw [if_pos hc80]
    by_cases hd80 : d < 0x80
    · rw [if_pos hd80]
      exact ⟨[], c, d, [], [], rfl, rfl, hcd⟩
    · rw [if_neg hd80]
      by_cases hd800 : d < 0x800
      · rw [if_pos hd800]
        exact ⟨[], c, 0xC0 + d / 64, [], [0x80 + d % 64], rfl, rfl, by omega⟩
      · rw [if_neg hd800, if_pos hd]
        exact ⟨[], c, 0xE0 + d / 4096, [],
          [0x80 + d / 64 % 64, 0x80 + d % 64], rfl, rfl, by omega⟩
  · rw [if_neg hc80]
    by_cases hc800 : c < 0x800
    · rw [if_pos hc800, if_neg (by omega : ¬ d < 0x80)]
      by_cases hd800 : d < 0x800
      · rw [if_pos hd800]
        by_cases hdiv : c / 64 < d / 64
        · exact ⟨[], 0xC0 + c / 64, 0xC0 + d / 64, [0x80 + c % 64],
            [0x80 + d % 64], rfl, rfl, by omega⟩
        · have hde : c / 64 = d / 64 := by omega
          refine ⟨[0xC0 + c / 64], 0x80 + c % 64, 0x80 + d % 64, [], [],
            rfl, ?_, by omega⟩
          rw [hde]; rfl
      · rw [if_neg hd800, if_pos hd]
        exact ⟨[], 0xC0 + c / 64, 0xE0 + d / 4096, [0x80 + c % 64],
          [0x80 + d / 64 % 64, 0x80 + d % 64], rfl, rfl, by omega⟩
    · rw [if_neg hc800, if_pos (by omega : c < 0x10000),
        if_neg (by omega : ¬ d < 0x80), if_neg (by omega : ¬ d < 0x800),
        if_pos hd]
      by_cases hdiv : c / 4096 < d / 4096
      · exact ⟨[], 0xE0 + c / 4096, 0xE0 + d / 4096,
          [0x80 + c / 64 % 64, 0x80 + c % 64],
          [0x80 + d / 64 % 64, 0x80 + d % 64], rfl, rfl, by omega⟩
      · have h1 : c / 4096 = d / 4096 := by omega
        by_cases hdiv2 : c / 64 % 64 < d / 64 % 64
        · refine ⟨[0xE0 + c / 4096], 0x80 + c / 64 % 64, 0x80 + d / 64 % 64,
            [0x80 + c % 64], [0x80 + d % 64], rfl, ?_, by omega⟩
          rw [h1]; rfl
        · have h2 : c / 64 % 64 = d / 64 % 64 := by omega
          refine ⟨[0xE0 + c / 4096, 0x80 + c / 64 % 64], 0x80 + c % 64,
            0x80 + d % 64, [], [], rfl, ?_, by omega⟩
          rw [h1, h2]; rfl

/-- Lifting UTF-8 order preservation to sequences of BMP scalar values. -/
theorem utf8_bytesLe_of_cp : ∀ a b : List Nat, (∀ x ∈ b, x < 0x10000) →
    bytesLe a b = true →
    bytesLe (a.flatMap utf8CharN) (b.flatMap utf8CharN) = true
  | [], _, _, _ => rfl
  | _ :: _, [], _, h => by simp [bytesLe] at h
  | x :: xs, y :: ys, hb, h => by
    simp only [bytesLe] at h
    by_cases hxy : x < y
    · have hlex := lexBelow_utf8CharN hxy (hb y (by simp))
      have := bytesLe_append_of_lexBelow hlex (xs.flatMap utf8CharN)
        (ys.flatMap utf8CharN)
      simpa [List.flatMap_cons] using this
    · rw [if_neg hxy] at h
      by_cases hyx : y < x
      · rw [if_pos hyx] at h; exact absurd h (by simp)
      · rw [if_neg hyx] at h
        have hxyeq : x = y := by omega
        subst hxyeq
        have hrec := utf8_bytesLe_of_cp xs ys
          (fun z hz => hb z (by simp [hz])) h
        simp only [List.flatMap_cons]
        rw [bytesLe_append_same]
        exact hrec

theorem flatMap_utf16CharN_bmp : ∀ l : List Char,
    (∀ c ∈ l, c.toNat < 0x10000) →
    l.flatMap (fun c => utf16CharN c.toNat) = l.map Char.toNat
  | [], _ => rfl
  | c :: cs, h => by
    have hc : c.toNat < 0x10000 := h c (by simp)
    have hcs := flatMap_utf16CharN_bmp cs (fun z hz => h z (by simp [hz]))
    have h1 : utf16CharN c.toNat = [c.toNat] := by
      simp [utf16CharN, hc]
    simp only [List.flatMap_cons, List.map_cons, hcs, h1]
    rfl

theorem utf8Bytes_eq_flatMap (s : String) :
    utf8Bytes s = (s.data.map Char.toNat).flatMap utf8CharN := by
  unfold utf8Bytes
  induction s.data with
  | nil => rfl
  | cons c cs ih =>
    simp only [List.flatMap_cons, List.map_cons, ih, utf8Char_eq_utf8CharN]

/-- For strings whose characters all lie in the BMP, JavaScript string order
(UTF-16 code-unit lexicographic) implies byte-wise UTF-8 order. -/
theorem utf8Bytes_le_of_keyLe {a b : String}
    (ha : ∀ c ∈ a.data, c.toNat < 0x10000)
    (hb : ∀ c ∈ b.data, c.toNat < 0x10000) (h : keyLe a b) :
    bytesLe (utf8Bytes a) (utf8Bytes b) = true := by
  have hua : utf16Units a = a.data.map Char.toNat :=
    flatMap_utf16CharN_bmp a.data ha
  have hub : utf16Units b = b.data.map Char.toNat :=
    flatMap_utf16CharN_bmp b.data hb
  have hcp : bytesLe (a.data.map Char.toNat) (b.data.map Char.toNat) =
      true := by
    rw [← hua, ← hub]; exact h
  have hmono := utf8_bytesLe_of_cp (a.data.map Char.toNat)
    (b.data.map Char.toNat)
    (by intro x hx
        obtain ⟨c, hc, rfl⟩ := List.mem_map.mp hx
        exact hb c hc) hcp
  rw [utf8Bytes_eq_flatMap a, utf8Bytes_eq_flatMap b]
  exact hmono

theorem stringify_eq_none_iff (v : Js) :
    stringifyCanonical v = none ↔ v = Js.undef := by
  cases v <;> simp [stringifyCanonical]

theorem mem_stringifyFields {k : String} {v : Js} :
    ∀ fs : List (String × Js), (k, v) ∈ fs →
      (k, stringifyCanonical v) ∈ stringifyFields fs
  | [], h => absurd h (by simp)
  | (k2, v2) :: fs, h => by
    rcases List.mem_cons.mp h with h | h
    · obtain ⟨rfl, rfl⟩ := Prod.mk.injEq .. ▸ (by simpa using h :
        k = k2 ∧ v = v2)
      simp [stringifyFields]
    · simp only [stringifyFields]
      exact List.mem_cons_of_mem _ (mem_stringifyFields fs h)

theorem exists_of_mem_stringifyFields {p : String × Option String} :
    ∀ fs : List (String × Js), p ∈ stringifyFields fs →
      ∃ q ∈ fs, p = (q.1, stringifyCanonical q.2)
  | [], h => absurd h (by simp [stringifyFields])
  | (k2, v2) :: fs, h => by
    simp only [stringifyFields] at h
    rcases List.mem_cons.mp h with h | h
    · exact ⟨(k2, v2), by simp, h⟩
    · obtain ⟨q, hq, hpq⟩ := exists_of_mem_stringifyFields fs h
      exact ⟨q, by simp [hq], hpq⟩

/-- C5 (amended): for every object, `canonicalize` renders the entries whose
value is present and whose key is not `__proto__`, `constructor` or
`prototype`, with keys in ascending UTF-16 code-unit order — the order of
JavaScript's default `sort()` — with no whitespace.  A key is emitted
exactly when some field carries it with a non-undefined value and it is not
one of the three dropped keys.  Whenever all emitted keys consist only of
Basic-Multilingual-Plane characters, this key order coincides with the
byte-wise ascending UTF-8 order the specification states; outside the BMP
the two orders differ (see the counterexample). -/
theorem C5_canonicalize_object_keys (fields : List (String × Js)) :
    canonicalize (Js.obj fields) = some ("\x7b" ++ joinComma (renderEntries
      (sortEntries ((stringifyFields fields).filter goodEntry))) ++ "\x7d") ∧
    List.Pairwise keyLe (canonKeys fields) ∧
    (∀ k ∈ canonKeys fields,
      k ≠ "__proto__" ∧ k ≠ "constructor" ∧ k ≠ "prototype") ∧
    (∀ k, k ∈ canonKeys fields ↔ ∃ v, (k, v) ∈ fields ∧ v ≠ Js.undef ∧
      k ≠ "__proto__" ∧ k ≠ "constructor" ∧ k ≠ "prototype") ∧
    ((∀ k ∈ canonKeys fields, ∀ c ∈ k.data, c.toNat < 0x10000) →
      List.Pairwise (fun a b => bytesLe (utf8Bytes a) (utf8Bytes b) = true)
        (canonKeys fields)) := by
  have hsorted : List.Sorted entryLe
      (sortEntries ((stringifyFields fields).filter goodEntry)) :=
    List.sorted_insertionSort entryLe _
  have hpair : List.Pairwise keyLe (canonKeys fields) :=
    List.Pairwise.map Prod.fst (fun _ _ h => h) hsorted
  refine ⟨rfl, hpair, ?_, ?_, fun hbmp => hpair.imp_of_mem
    (fun ha hb h => utf8Bytes_le_of_keyLe (hbmp _ ha) (hbmp _ hb) h)⟩
  · intro k hk
    obtain ⟨p, hp, rfl⟩ := List.mem_map.mp hk
    have hp2 : p ∈ (stringifyFields fields).filter goodEntry :=
      ((List.perm_insertionSort entryLe _).mem_iff).mp hp
    have hg : goodEntry p = true := (List.mem_filter.mp hp2).2
    simp only [goodEntry, Bool.and_eq_true, Bool.not_eq_true',
      Bool.or_eq_false_iff, decide_eq_false_iff_not] at hg
    exact ⟨hg.2.1.1, hg.2.1.2, hg.2.2⟩
  · intro k
    constructor
    · intro hk
      obtain ⟨p, hp, rfl⟩ := List.mem_map.mp hk
      have hp2 : p ∈ (stringifyFields fields).filter goodEntry :=
        ((List.perm_insertionSort entryLe _).mem_iff).mp hp
      have hmem := (List.mem_filter.mp hp2).1
      have hg := (List.mem_filter.mp hp2).2
      obtain ⟨q, hq, rfl⟩ := exists_of_mem_stringifyFields _ hmem
      simp only [goodEntry, Bool.and_eq_true, Bool.not_eq_true',
        Bool.or_eq_false_iff, decide_eq_false_iff_not] at hg
      refine ⟨q.2, by simpa using hq, ?_, hg.2.1.1, hg.2.1.2, hg.2.2⟩
      intro hun
      rw [(stringify_eq_none_iff q.2).mpr hun] at hg
      simpa using hg.1
    · rintro ⟨v, hv, hvu, h1, h2, h3⟩
      have hmem := mem_stringifyFields fields hv
      have hg : goodEntry (k, stringifyCanonical v) = true := by
        simp only [goodEntry, Bool.and_eq_true, Bool.not_eq_true',
          Bool.or_eq_false_iff, decide_eq_false_iff_not]
        refine ⟨?_, ⟨h1, h2⟩, h3⟩
        cases hsv : stringifyCanonical v with
        | none => exact absurd ((stringify_eq_none_iff v).mp hsv) hvu
        | some s => rfl
      have hf : (k, stringifyCanonical v) ∈
          (stringifyFields fields).filter goodEntry :=
        List.mem_filter.mpr ⟨hmem, hg⟩
      have hs : (k, stringifyCanonical v) ∈
          sortEntries ((stringifyFields fields).filter goodEntry) :=
        ((List.perm_insertionSort entryLe _).mem_iff).mpr hf
      exact List.mem_map.mpr ⟨_, hs, rfl⟩

/-- C5 counterexample: with the key U+10000 (a supplementary-plane
character, UTF-16 surrogates D800 DC00, UTF-8 bytes F0 90 80 80) and the
key U+E000 (UTF-16 E000, UTF-8 bytes EE 80 80), `canonicalize` emits the
U+10000 key first (JavaScript sorts by UTF-16 code units and D800 < E000),
but byte-wise UTF-8 order requires the U+E000 key first (EE < F0): the
claimed UTF-8 key ordering fails on keys outside the Basic Multilingual
Plane. -/
theorem C5_nonbmp_counterexample :
    canonicalize (Js.obj [(String.mk [Char.ofNat 0xE000], Js.num 2),
        (String.mk [Char.ofNat 0x10000], Js.num 1)]) =
      some ("\x7b\"" ++ String.mk [Char.ofNat 0x10000] ++ "\":1,\"" ++
        String.mk [Char.ofNat 0xE000] ++ "\":2\x7d") ∧
    bytesLe (utf8Bytes (String.mk [Char.ofNat 0x10000]))
      (utf8Bytes (String.mk [Char.ofNat 0xE000])) = false := by
  constructor
  · decide
  · decide

theorem C5_canonicalize_object_keys_witness :
    List.Pairwise (fun a b => bytesLe (utf8Bytes a) (utf8Bytes b) = true)
      (canonKeys [("b", Js.num 2), ("a", Js.num 1), ("u", Js.undef),
        ("__proto__", Js.num 3)]) :=
  (C5_canonicalize_object_keys _).2.2.2.2 (by decide)

/-! ## Indexer reconciliation (`reconcilePending`, indexer main)

A proof row carries the transaction id, the epoch timestamp from
`extract(epoch from ts)` (a rational number of seconds, `NULL` possible) and
the stored commitment level.  The SQL
`SELECT ... WHERE commitment_level < 2 ORDER BY ts ASC LIMIT 100` is the
filter/sort/take below (ascending timestamps, `NULL`s last as in
PostgreSQL).  Per selected row the code skips empty transaction ids,
re-queries the signature status, and acts as `reconcileRow` does: a missing
status — or a status carrying an error — deletes the row when it is older
than 60 seconds, otherwise the stored level is set to the level of the
reported confirmation status. -/

structure ProofRow where
  txid : String
  tsEpoch : Option ℚ
  level : Nat

inductive SigLevel where
  | processed
  | confirmed
  | finalized
  deriving Repr, DecidableEq

structure SigStatusR where
  err : Bool
  confirmationStatus : Option SigLevel
  deriving Repr, DecidableEq

inductive RecAction where
  | skip
  | delete
  | setLevel (level : Nat)
  deriving Repr, DecidableEq

def rowAge (nowSec : ℚ) (r : ProofRow) : ℚ :=
  match r.tsEpoch with
  | some t => nowSec - t
  | none => 99999

def levelOfStatus : Option SigLevel → Nat
  | some .finalized => 2
  | some .confirmed => 1
  | _ => 0

def reconcileRow (nowSec : ℚ) (status : Option SigStatusR) (r : ProofRow) :
    RecAction :=
  if r.txid = "" then RecAction.skip
  else
    match status with
    | none =>
      if rowAge nowSec r > 60 then RecAction.delete else RecAction.skip
    | some s =>
      if s.err then
        if rowAge nowSec r > 60 then RecAction.delete else RecAction.skip
      else RecAction.setLevel (levelOfStatus s.confirmationStatus)

def tsLe : Option ℚ → Option ℚ → Prop
  | some t1, some t2 => t1 ≤ t2
  | some _, none => True
  | none, some _ => False
  | none, none => True

instance instDecidableTsLe : ∀ a b : Option ℚ, Decidable (tsLe a b)
  | some t1, some t2 => inferInstanceAs (Decidable (t1 ≤ t2))
  | some _, none => inferInstanceAs (Decidable True)
  | none, some _ => inferInstanceAs (Decidable False)
  | none, none => inferInstanceAs (Decidable True)

def rowLe (r1 r2 : ProofRow) : Prop := tsLe r1.tsEpoch r2.tsEpoch

instance : DecidableRel rowLe := fun r1 r2 =>
  inferInstanceAs (Decidable (tsLe r1.tsEpoch r2.tsEpoch))

theorem tsLe_total : ∀ a b : Option ℚ, tsLe a b ∨ tsLe b a
  | some t1, some t2 => le_total t1 t2
  | some _, none => Or.inl trivial
  | none, some _ => Or.inr trivial
  | none, none => Or.inl trivial

theorem tsLe_trans : ∀ a b c : Option ℚ, tsLe a b → tsLe b c → tsLe a c
  | some _, some _, some _, h1, h2 => le_trans h1 h2
  | some _, some _, none, _, _ => trivial
  | some _, none, some _, _, h2 => absurd h2 (by simp [tsLe])
  | some _, none, none, _, _ => trivial
  | none, some _, _, h1, _ => absurd h1 (by simp [tsLe])
  | none, none, some _, _, h2 => absurd h2 (by simp [tsLe])
  | none, none, none, _, _ => trivial

instance : IsTotal ProofRow rowLe := ⟨fun a b => tsLe_total a.tsEpoch b.tsEpoch⟩

instance : IsTrans ProofRow rowLe :=
  ⟨fun a b c h1 h2 => tsLe_trans a.tsEpoch b.tsEpoch c.tsEpoch h1 h2⟩

def selectPending (rows : List ProofRow) : List ProofRow :=
  (List.insertionSort rowLe (rows.filter (fun r => r.level < 2))).take 100

/-- C6 counterexample: a row whose signature the ledger DOES know — the
status is present, reporting an on-chain error (a failed transaction, here
even with a confirmation status) — is nevertheless deleted once older than
60 seconds, because the code treats `!s || s.err` alike.  The claim's
"deleted exactly when the ledger has no record of its signature" is
therefore false. -/
theorem C6_reconcile_err_counterexample :
    reconcileRow 70 (some ⟨true, some SigLevel.confirmed⟩)
      ⟨"sig1", some 0, 0⟩ = RecAction.delete ∧
    some (⟨true, some SigLevel.confirmed⟩ : SigStatusR) ≠ none := by
  constructor
  · have h60 : rowAge 70 (⟨"sig1", some 0, 0⟩ : ProofRow) > 60 := by
      norm_num [rowAge]
    simp [reconcileRow, h60]
  · simp

/-- C6 (amended): every reconciliation cycle selects at most 100 rows with
`commitment_level < 2`, oldest-first; for each selected row with a nonempty
transaction id whose re-queried status is confirmed (resp. finalized) and
carries no error, the stored level is set to 1 (resp. 2); and a row is
deleted exactly when its transaction id is nonempty, the ledger either has
no record of the signature or reports an error for it, and the row is older
than 60 seconds. -/
theorem C6_reconcile_cycle (rows : List ProofRow) (nowSec : ℚ)
    (status : Option SigStatusR) (r : ProofRow) :
    (selectPending rows).length ≤ 100 ∧
    (∀ r2 ∈ selectPending rows, r2.level < 2) ∧
    List.Pairwise rowLe (selectPending rows) ∧
    (∀ s : SigStatusR, r.txid ≠ "" → status = some s → s.err = false →
      s.confirmationStatus = some SigLevel.confirmed →
      reconcileRow nowSec status r = RecAction.setLevel 1) ∧
    (∀ s : SigStatusR, r.txid ≠ "" → status = some s → s.err = false →
      s.confirmationStatus = some SigLevel.finalized →
      reconcileRow nowSec status r = RecAction.setLevel 2) ∧
    (reconcileRow nowSec status r = RecAction.delete ↔
      r.txid ≠ "" ∧
      (status = none ∨ ∃ s : SigStatusR, status = some s ∧ s.err = true) ∧
      rowAge nowSec r > 60) := by
  refine ⟨?_, ?_, ?_, ?_, ?_, ?_⟩
  · simp only [selectPending]
    exact (List.length_take_le _ _).trans (le_refl 100) |>.trans (by simp)
  · intro r2 h2
    have hmem : r2 ∈ List.insertionSort rowLe
        (rows.filter (fun r => r.level < 2)) :=
      List.mem_of_mem_take h2
    have : r2 ∈ rows.filter (fun r => r.level < 2) :=
      ((List.perm_insertionSort rowLe _).mem_iff).mp hmem
    simpa using (List.mem_filter.mp this).2
  · exact ((List.sorted_insertionSort rowLe _).sublist
      (List.take_sublist _ _))
  · intro s ht hs herr hcs
    simp [reconcileRow, ht, hs, herr, hcs, levelOfStatus]
  · intro s ht hs herr hcs
    simp [reconcileRow, ht, hs, herr, hcs, levelOfStatus]
  · unfold reconcileRow
    by_cases ht : r.txid = ""
    · simp [ht]
    · rw [if_neg ht]
      cases status with
      | none =>
        by_cases hage : rowAge nowSec r > 60
        · simp [hage, ht]
        · simp [hage, ht]
      | some s =>
        by_cases herr : s.err
        · by_cases hage : rowAge nowSec r > 60
          · simp [herr, hage, ht]
          · simp [herr, hage, ht]
        · simp [herr, ht]

theorem C6_reconcile_cycle_witness :
    reconcileRow 70 (some ⟨false, some SigLevel.confirmed⟩)
        ⟨"sig1", some 0, 0⟩ = RecAction.setLevel 1 ∧
    reconcileRow 70 none ⟨"sig1", some 0, 0⟩ = RecAction.delete :=
  ⟨(C6_reconcile_cycle [] 70 (some ⟨false, some SigLevel.confirmed⟩)
      ⟨"sig1", some 0, 0⟩).2.2.2.1 _ (by simp) rfl rfl rfl,
   (C6_reconcile_cycle [] 70 none ⟨"sig1", some 0, 0⟩).2.2.2.2.2.mpr
      ⟨by simp, Or.inl rfl, by norm_num [rowAge]⟩⟩

/-! ## Idempotency middleware (`enforceIdempotency` / `getIdemKey`,
orchestrator server)

The cache is a JavaScript `Map` from the Idempotency-Key header value to
`(status, body, timestamp)`, embedded as an insertion-ordered association
list; `Map.set` on an existing key keeps its position, otherwise appends.
The middleware runs on every POST before any route handler: a missing or
blank header is a 400 (the embedding keeps the error code as the body); a
cached fresh entry is replayed without calling the handler; otherwise the
handler runs and its `res.json` is intercepted to store the response, with
an expiry sweep every 100th store and a size-bound eviction of the oldest
entry.  The 24-hour TTL is `IDEMP_TTL_MS`.  `jsTrim` strips the JavaScript
whitespace set (approximated by its common members) as `String.trim` does. -/

def IDEMP_TTL_MS : Nat := 24 * 60 * 60 * 1000

structure CachedResponse where
  status : Nat
  body : String
  ts : Nat
  deriving Repr, DecidableEq

structure IdemState where
  cache : List (String × CachedResponse)
  setCounter : Nat
  deriving Repr, DecidableEq

structure HttpReq where
  method : String
  path : String
  body : String
  idemHeader : Option String
  deriving Repr, DecidableEq

def isJsSpace (c : Char) : Bool :=
  c.toNat = 32 || (9 ≤ c.toNat && c.toNat ≤ 13) || c.toNat = 0xA0 ||
  c.toNat = 0xFEFF || c.toNat = 0x2028 || c.toNat = 0x2029

def jsTrim (s : String) : String :=
  String.mk (((s.data.dropWhile isJsSpace).reverse.dropWhile
    isJsSpace).reverse)

def getIdemKey (r : HttpReq) : Option String :=
  match r.idemHeader with
  | none => none
  | some kk =>
    if kk = "" then none
    else
      let v := jsTrim kk
      if v.length > 0 then some v else none

def mapGet (m : List (String × CachedResponse)) (k : String) :
    Option CachedResponse :=
  (m.find? (fun p => p.1 = k)).map Prod.snd

def mapSet (m : List (String × CachedResponse)) (k : String)
    (v : CachedResponse) : List (String × CachedResponse) :=
  if (m.find? (fun p => p.1 = k)).isSome then
    m.map (fun p => if p.1 = k then (k, v) else p)
  else m ++ [(k, v)]

def purgeExpired (now : Nat) (m : List (String × CachedResponse)) :
    List (String × CachedResponse) :=
  m.filter (fun p => now - p.2.ts < IDEMP_TTL_MS)

def oldestEntry (m : List (String × CachedResponse)) :
    Option (String × CachedResponse) :=
  m.foldl (fun acc p =>
    match acc with
    | none => some p
    | some q => if p.2.ts < q.2.ts then some p else some q) none

def evictOldest (m : List (String × CachedResponse)) :
    List (String × CachedResponse) :=
  match oldestEntry m with
  | some q => m.eraseP (fun p => p.1 = q.1)
  | none => m

def cacheStore (maxEntries : Nat) (st : IdemState) (k : String)
    (status : Nat) (body : String) (now : Nat) : IdemState :=
  let m1 := mapSet st.cache k ⟨status, body, now⟩
  let c := st.setCounter + 1
  let m2 := if c % 100 = 0 then purgeExpired now m1 else m1
  let m3 := if m2.length > maxEntries then evictOldest m2 else m2
  ⟨m3, c⟩

structure ReqOutcome where
  status : Nat
  body : String
  state : IdemState
  handlerRan : Bool
  deriving Repr, DecidableEq

def enforceIdempotency (maxEntries : Nat) (handler : HttpReq → Nat × String)
    (st : IdemState) (r : HttpReq) (now : Nat) : ReqOutcome :=
  if r.method ≠ "POST" then
    let sb := handler r
    ⟨sb.1, sb.2, st, true⟩
  else
    match getIdemKey r with
    | none => ⟨400, "MissingIdempotencyKey", st, false⟩
    | some k =>
      match mapGet st.cache k with
      | some e =>
        if now - e.ts < IDEMP_TTL_MS then ⟨e.status, e.body, st, false⟩
        else
          let sb := handler r
          ⟨sb.1, sb.2, cacheStore maxEntries st k sb.1 sb.2 now, true⟩
      | none =>
        let sb := handler r
        ⟨sb.1, sb.2, cacheStore maxEntries st k sb.1 sb.2 now, true⟩

theorem mapGet_append_right (m : List (String × CachedResponse))
    (k : String) (v : CachedResponse) (h : mapGet m k = none) :
    mapGet (m ++ [(k, v)]) k = some v := by
  induction m with
  | nil => simp [mapGet]
  | cons p m ih =>
    by_cases hp : p.1 = k
    · exfalso
      unfold mapGet at h
      rw [List.find?_cons_of_pos _ (by simp [hp])] at h
      simp at h
    · unfold mapGet at h ⊢
      rw [List.find?_cons_of_neg _ (by simp [hp])] at h
      rw [List.cons_append, List.find?_cons_of_neg _ (by simp [hp])]
      exact ih h

theorem mapGet_purge_fresh (now : Nat)
    (m : List (String × CachedResponse)) (k : String) (v : CachedResponse)
    (h : mapGet m k = some v) (hf : now - v.ts < IDEMP_TTL_MS) :
    mapGet (purgeExpired now m) k = some v := by
  induction m with
  | nil => simp [mapGet] at h
  | cons p m ih =>
    by_cases hp : p.1 = k
    · unfold mapGet at h
      rw [List.find?_cons_of_pos _ (by simp [hp])] at h
      have hv : p.2 = v := by simpa using h
      unfold purgeExpired mapGet
      rw [List.filter_cons_of_pos (by simp [hv, hf])]
      rw [List.find?_cons_of_pos _ (by simp [hp])]
      simp [hv]
    · unfold mapGet at h
      rw [List.find?_cons_of_neg _ (by simp [hp])] at h
      unfold purgeExpired mapGet at ih ⊢
      by_cases hkeep : now - p.2.ts < IDEMP_TTL_MS
      · rw [List.filter_cons_of_pos (by simpa using hkeep)]
        rw [List.find?_cons_of_neg _ (by simp [hp])]
        exact ih h
      · rw [List.filter_cons_of_neg (by simpa using hkeep)]
        exact ih h

theorem cacheStore_of_room (maxEntries : Nat) (st : IdemState) (k : String)
    (s : Nat) (b : String) (now : Nat)
    (hmiss : mapGet st.cache k = none)
    (hroom : st.cache.length < maxEntries) :
    mapGet (cacheStore maxEntries st k s b now).cache k =
      some ⟨s, b, now⟩ := by
  have hfind : st.cache.find? (fun p => p.1 = k) = none := by
    unfold mapGet at hmiss
    exact Option.map_eq_none'.mp hmiss
  have hm1 : mapSet st.cache k ⟨s, b, now⟩ =
      st.cache ++ [(k, ⟨s, b, now⟩)] := by
    unfold mapSet
    rw [hfind]
    rfl
  have hget1 : mapGet (st.cache ++ [(k, ⟨s, b, now⟩)]) k =
      some ⟨s, b, now⟩ := mapGet_append_right _ _ _ hmiss
  unfold cacheStore
  dsimp only
  rw [hm1]
  by_cases hc : (st.setCounter + 1) % 100 = 0
  · rw [if_pos hc]
    have hget2 := mapGet_purge_fresh now _ k _ hget1
      (by simp [IDEMP_TTL_MS])
    have hlen2 : (purgeExpired now
        (st.cache ++ [(k, ⟨s, b, now⟩)])).length ≤ st.cache.length + 1 := by
      have := List.length_filter_le
        (fun p => decide (now - p.2.ts < IDEMP_TTL_MS))
        (st.cache ++ [(k, ⟨s, b, now⟩)])
      simpa [purgeExpired] using this
    rw [if_neg (by simp; omega)]
    exact hget2
  · rw [if_neg hc]
    rw [if_neg (by simp; omega)]
    exact hget1

/-- C9: the idempotency cache is keyed by the Idempotency-Key header value
alone.  For a first POST carrying key `k` that misses the cache (with room
below the capacity bound), the handler runs and its response is stored; a
second POST carrying the same key within the 24-hour TTL — with any method
body and any path, i.e. also across `/prove`, `/artifact` and `/anchor` —
receives exactly the cached status code and body of the first response, its
route handler never runs, and the cache is unchanged. -/
theorem C9_idempotency_key_replay (maxEntries : Nat)
    (handler : HttpReq → Nat × String) (st : IdemState) (r1 r2 : HttpReq)
    (now1 now2 : Nat) (k : String)
    (hm1 : r1.method = "POST") (hm2 : r2.method = "POST")
    (hk1 : getIdemKey r1 = some k) (hk2 : getIdemKey r2 = some k)
    (hmiss : mapGet st.cache k = none)
    (hroom : st.cache.length < maxEntries)
    (hfresh : now2 - now1 < IDEMP_TTL_MS) :
    (enforceIdempotency maxEntries handler st r1 now1).handlerRan = true ∧
    (enforceIdempotency maxEntries handler st r1 now1).status =
      (handler r1).1 ∧
    (enforceIdempotency maxEntries handler st r1 now1).body =
      (handler r1).2 ∧
    enforceIdempotency maxEntries handler
        (enforceIdempotency maxEntries handler st r1 now1).state r2 now2 =
      ⟨(handler r1).1, (handler r1).2,
        (enforceIdempotency maxEntries handler st r1 now1).state, false⟩ := by
  have e1 : enforceIdempotency maxEntries handler st r1 now1 =
      ⟨(handler r1).1, (handler r1).2,
        cacheStore maxEntries st k (handler r1).1 (handler r1).2 now1,
        true⟩ := by
    unfold enforceIdempotency
    simp [hm1, hk1, hmiss]
  have hget := cacheStore_of_room maxEntries st k (handler r1).1
    (handler r1).2 now1 hmiss hroom
  have e2 : enforceIdempotency maxEntries handler
      (cacheStore maxEntries st k (handler r1).1 (handler r1).2 now1) r2
      now2 =
      ⟨(handler r1).1, (handler r1).2,
        cacheStore maxEntries st k (handler r1).1 (handler r1).2 now1,
        false⟩ := by
    unfold enforceIdempotency
    simp [hm2, hk2, hget, hfresh]
  rw [e1]
  exact ⟨rfl, rfl, rfl, e2⟩

theorem C9_idempotency_key_replay_witness :
    (enforceIdempotency 100 (fun r => (200, r.path ++ ":" ++ r.body))
        ⟨[], 0⟩ ⟨"POST", "/prove", "a", some "K"⟩ 0).handlerRan = true ∧
    enforceIdempotency 100 (fun r => (200, r.path ++ ":" ++ r.body))
        (enforceIdempotency 100 (fun r => (200, r.path ++ ":" ++ r.body))
          ⟨[], 0⟩ ⟨"POST", "/prove", "a", some "K"⟩ 0).state
        ⟨"POST", "/anchor", "b", some " K "⟩ 1000 =
      ⟨200, "/prove:a",
        (enforceIdempotency 100 (fun r => (200, r.path ++ ":" ++ r.body))
          ⟨[], 0⟩ ⟨"POST", "/prove", "a", some "K"⟩ 0).state, false⟩ := by
  have h := C9_idempotency_key_replay 100
    (fun r => (200, r.path ++ ":" ++ r.body)) ⟨[], 0⟩
    ⟨"POST", "/prove", "a", some "K"⟩ ⟨"POST", "/anchor", "b", some " K "⟩
    0 1000 "K" rfl rfl (by decide) (by decide) rfl (by decide) (by decide)
  exact ⟨h.1, h.2.2.2⟩

end ZkSealevel
